import Mathlib

/-!
Verification of the reader subsystem of `src/components/reader/TextReader.tsx`:
pagination, tokenization, the speech playback state machine
(start/stop/pause/resume/skip), voice resolution, the word-boundary highlight
computation, and the reading-streak update.

Texts are modelled as `List Char` (JavaScript strings by code points).
JavaScript numbers that hold integral values (character indices, lengths,
timestamps) are modelled as `Nat`/`Int`; the floating-point constants
`0.7`, `0.8`, `0.025`, `15`, `10` appearing in arithmetic are modelled
exactly as rationals (`ℚ`) or by cross-multiplied integer comparisons.
-/

namespace DyslexiaReader

/-- JavaScript `String.prototype.lastIndexOf(pat, fromIndex)` over character
lists: the greatest index `i ≤ pos` at which `pat` occurs in full in `l`,
or `-1` when there is no such occurrence. -/
def lastIndexOfFrom (l pat : List Char) (pos : Nat) : Int :=
  match (List.range (pos + 1)).reverse.find? (fun i => pat.isPrefixOf (l.drop i)) with
  | some i => (i : Int)
  | none => -1

/-- Break-point selection of one iteration of the pagination loop
(`TextReader.tsx` lines 185-212).  The float comparisons
`paragraphBreak > pageSize * 0.7` etc. are modelled by the exact rational
comparisons `10 * paragraphBreak > 7 * pageSize` etc. -/
def pageBreakPoint (pageSize : Nat) (remaining : List Char) : Nat :=
  let breakPoint := min pageSize remaining.length
  if breakPoint < remaining.length then
    let paragraphBreak := lastIndexOfFrom remaining ['\n', '\n'] breakPoint
    if 10 * paragraphBreak > 7 * (pageSize : Int) then
      paragraphBreak.toNat + 2
    else
      let sentenceBreak :=
        max (lastIndexOfFrom remaining ['.', ' '] breakPoint)
          (max (lastIndexOfFrom remaining ['?', ' '] breakPoint)
            (lastIndexOfFrom remaining ['!', ' '] breakPoint))
      if 10 * sentenceBreak > 7 * (pageSize : Int) then
        sentenceBreak.toNat + 2
      else
        let spaceBreak := lastIndexOfFrom remaining [' '] breakPoint
        if 10 * spaceBreak > 8 * (pageSize : Int) then
          spaceBreak.toNat + 1
        else
          breakPoint
  else breakPoint

/-- Fuel-indexed form of the `while (remaining.length > 0)` pagination loop
(`TextReader.tsx` lines 185-212): each loop iteration pushes
`remaining.substring(0, breakPoint)` and continues on
`remaining.substring(breakPoint)`.  The fuel bounds the number of loop
iterations; `paginate` below supplies fuel `text.length`, which is shown
sufficient whenever `pageSize ≥ 1`. -/
def paginateFuel (pageSize : Nat) : Nat → List Char → List (List Char)
  | _, [] => []
  | 0, _ :: _ => []
  | fuel + 1, c :: rest =>
    let remaining := c :: rest
    let bp := pageBreakPoint pageSize remaining
    remaining.take bp :: paginateFuel pageSize fuel (remaining.drop bp)

/-- Pagination of the full text (`TextReader.tsx` lines 180-214). -/
def paginate (pageSize : Nat) (text : List Char) : List (List Char) :=
  paginateFuel pageSize text.length text

theorem pageBreakPoint_pos (pageSize : Nat) (remaining : List Char)
    (hS : 1 ≤ pageSize) (hrem : remaining ≠ []) :
    1 ≤ pageBreakPoint pageSize remaining := by
  have hlen : 1 ≤ remaining.length := List.length_pos.mpr hrem
  unfold pageBreakPoint
  dsimp only
  split
  · split
    · omega
    · split
      · omega
      · split
        · omega
        · omega
  · omega

theorem paginateFuel_join (pageSize : Nat) (hS : 1 ≤ pageSize) :
    ∀ (fuel : Nat) (t : List Char), t.length ≤ fuel →
      (paginateFuel pageSize fuel t).flatten = t := by
  intro fuel
  induction fuel with
  | zero =>
    intro t ht
    have : t = [] := List.length_eq_zero.mp (Nat.le_zero.mp ht)
    subst this
    rfl
  | succ f ih =>
    intro t ht
    match t with
    | [] => rfl
    | c :: rest =>
      have hbp : 1 ≤ pageBreakPoint pageSize (c :: rest) :=
        pageBreakPoint_pos pageSize (c :: rest) hS (by simp)
      have hlen : ((c :: rest).drop (pageBreakPoint pageSize (c :: rest))).length ≤ f := by
        rw [List.length_drop]
        simp only [List.length_cons] at ht ⊢
        omega
      simp only [paginateFuel, List.flatten]
      rw [ih _ hlen]
      exact List.take_append_drop _ _

theorem paginateFuel_stable (pageSize : Nat) (hS : 1 ≤ pageSize) :
    ∀ (fuel fuel' : Nat) (t : List Char), t.length ≤ fuel → t.length ≤ fuel' →
      paginateFuel pageSize fuel t = paginateFuel pageSize fuel' t := by
  intro fuel
  induction fuel with
  | zero =>
    intro fuel' t ht _
    have : t = [] := List.length_eq_zero.mp (Nat.le_zero.mp ht)
    subst this
    cases fuel' <;> rfl
  | succ f ih =>
    intro fuel' t ht ht'
    match t with
    | [] => cases fuel' <;> rfl
    | c :: rest =>
      match fuel' with
      | 0 => simp at ht'
      | f' + 1 =>
        have hbp : 1 ≤ pageBreakPoint pageSize (c :: rest) :=
          pageBreakPoint_pos pageSize (c :: rest) hS (by simp)
        have hlen : ((c :: rest).drop (pageBreakPoint pageSize (c :: rest))).length ≤ f := by
          rw [List.length_drop]
          simp only [List.length_cons] at ht ⊢
          omega
        have hlen' : ((c :: rest).drop (pageBreakPoint pageSize (c :: rest))).length ≤ f' := by
          rw [List.length_drop]
          simp only [List.length_cons] at ht' ⊢
          omega
        simp only [paginateFuel]
        rw [ih f' _ hlen hlen']

theorem paginateFuel_ne_nil (pageSize : Nat) (hS : 1 ≤ pageSize) :
    ∀ (fuel : Nat) (t : List Char), ∀ p ∈ paginateFuel pageSize fuel t, p ≠ [] := by
  intro fuel
  induction fuel with
  | zero =>
    intro t p hp
    cases t <;> simp [paginateFuel] at hp
  | succ f ih =>
    intro t p hp
    match t with
    | [] => simp [paginateFuel] at hp
    | c :: rest =>
      simp only [paginateFuel, List.mem_cons] at hp
      rcases hp with hp | hp
      · subst hp
        have hbp : 1 ≤ pageBreakPoint pageSize (c :: rest) :=
          pageBreakPoint_pos pageSize (c :: rest) hS (by simp)
        intro hcontra
        have := congrArg List.length hcontra
        rw [List.length_take] at this
        simp only [List.length_cons, List.length_nil] at this
        omega
      · exact ih _ p hp

/-- C1: for every input text `T` and every page size `S > 0`, the
concatenation of the pages produced by pagination is exactly `T`: pages are
contiguous, non-overlapping, and no character is dropped or duplicated. -/
theorem paginate_roundTrip (pageSize : Nat) (text : List Char) (hS : 1 ≤ pageSize) :
    (paginate pageSize text).flatten = text :=
  paginateFuel_join pageSize hS text.length text le_rfl

/-- Witness for `paginate_roundTrip` at `pageSize = 5`,
`text = "hello world"`. -/
theorem paginate_roundTrip_witness :
    1 ≤ 5 ∧ (paginate 5 "hello world".toList).flatten = "hello world".toList :=
  ⟨by decide, paginate_roundTrip 5 "hello world".toList (by decide)⟩

/-- C9: for every input text and every `targetPageSize ≥ 1`, the pagination
loop terminates — its fuel-indexed unfolding is stable once the fuel reaches
the text length, because every iteration consumes at least one character —
and every page it emits is a non-empty string. -/
theorem paginate_terminates_pages_nonempty (pageSize : Nat) (text : List Char)
    (hS : 1 ≤ pageSize) :
    (∀ p ∈ paginate pageSize text, p ≠ []) ∧
      (∀ fuel, text.length ≤ fuel → paginateFuel pageSize fuel text = paginate pageSize text) :=
  ⟨fun p hp => paginateFuel_ne_nil pageSize hS text.length text p hp,
   fun fuel hfuel => paginateFuel_stable pageSize hS fuel text.length text hfuel le_rfl⟩

/-- Witness for `paginate_terminates_pages_nonempty` at `pageSize = 4`,
`text = "ab cd ef"`, fuel `20`. -/
theorem paginate_terminates_pages_nonempty_witness :
    (∀ p ∈ paginate 4 "ab cd ef".toList, p ≠ []) ∧
      paginateFuel 4 20 "ab cd ef".toList = paginate 4 "ab cd ef".toList :=
  ⟨(paginate_terminates_pages_nonempty 4 "ab cd ef".toList (by decide)).1,
   (paginate_terminates_pages_nonempty 4 "ab cd ef".toList (by decide)).2 20 (by decide)⟩

/-- JavaScript whitespace test modelling the regex `\s` and
`String.prototype.trim` on the ASCII whitespace characters that occur in
extracted text. -/
def isJsSpace (c : Char) : Bool :=
  c == ' ' || c == '\t' || c == '\n' || c == '\r' || c == '\x0b' || c == '\x0c'

/-- JavaScript `String.prototype.trim` over character lists. -/
def jsTrim (l : List Char) : List Char :=
  ((l.dropWhile isJsSpace).reverse.dropWhile isJsSpace).reverse

/-- Accumulator pass of the word splitter: `wordsAux acc l` continues the
partial word `acc` (held reversed) through the remaining input `l`, emitting
the maximal runs of non-whitespace characters. -/
def wordsAux : List Char → List Char → List (List Char)
  | acc, [] => if acc.isEmpty then [] else [acc.reverse]
  | acc, c :: rest =>
    if isJsSpace c then
      if acc.isEmpty then wordsAux [] rest else acc.reverse :: wordsAux [] rest
    else wordsAux (c :: acc) rest

/-- Model of the JavaScript idiom
`s.split(/\s+/).filter(word => word.length > 0)` used both by the tokenizer
(`TextReader.tsx` line 254) and by the word-boundary handler (line 596). -/
def wordsOf (l : List Char) : List (List Char) :=
  wordsAux [] l

theorem wordsAux_ne_nil : ∀ (l acc : List Char), ∀ w ∈ wordsAux acc l, w ≠ [] := by
  intro l
  induction l with
  | nil =>
    intro acc w hw
    simp only [wordsAux] at hw
    split at hw
    · simp at hw
    · rename_i hacc
      simp only [List.mem_singleton] at hw
      subst hw
      simp only [ne_eq, List.reverse_eq_nil_iff]
      intro h
      subst h
      simp at hacc
  | cons c rest ih =>
    intro acc w hw
    simp only [wordsAux] at hw
    split at hw
    · split at hw
      · exact ih [] w hw
      · rename_i hacc
        rcases List.mem_cons.mp hw with h | h
        · subst h
          simp only [ne_eq, List.reverse_eq_nil_iff]
          intro h
          subst h
          simp at hacc
        · exact ih [] w h
    · exact ih (c :: acc) w hw

theorem wordsAux_no_space : ∀ (l acc : List Char),
    (∀ c ∈ acc, isJsSpace c = false) →
    ∀ w ∈ wordsAux acc l, ∀ c ∈ w, isJsSpace c = false := by
  intro l
  induction l with
  | nil =>
    intro acc hacc w hw c hc
    simp only [wordsAux] at hw
    split at hw
    · simp at hw
    · simp only [List.mem_singleton] at hw
      subst hw
      exact hacc c (List.mem_reverse.mp hc)
  | cons x rest ih =>
    intro acc hacc w hw c hc
    simp only [wordsAux] at hw
    split at hw
    · split at hw
      · exact ih [] (by simp) w hw c hc
      · rcases List.mem_cons.mp hw with h | h
        · subst h
          exact hacc c (List.mem_reverse.mp hc)
        · exact ih [] (by simp) w h c hc
    · rename_i hx
      refine ih (x :: acc) ?_ w hw c hc
      intro d hd
      rcases List.mem_cons.mp hd with h | h
      · subst h
        simpa using hx
      · exact hacc d h

theorem newline_not_mem_wordsOf (l : List Char) : ['\n'] ∉ wordsOf l := by
  intro h
  have := wordsAux_no_space l [] (by simp) ['\n'] h '\n' (by simp)
  simp [isJsSpace] at this

theorem count_newline_wordsOf (l : List Char) : (wordsOf l).count ['\n'] = 0 :=
  List.count_eq_zero.mpr (newline_not_mem_wordsOf l)

theorem filter_wordsOf (l : List Char) :
    (wordsOf l).filter (fun tok => tok ≠ ['\n']) = wordsOf l := by
  apply List.filter_eq_self.mpr
  intro w hw
  simp only [ne_eq, decide_eq_true_eq]
  intro h
  subst h
  exact newline_not_mem_wordsOf l hw

/-- Token emission of `processTextForPage` (`TextReader.tsx` lines 253-261),
restructured from the indexed `forEach` into list recursion: the indexed
condition `lineIndex < lines.length - 1 && line.length > 0` becomes "the
line is not the last one and is non-empty". -/
def tokensOfLines : List (List Char) → List (List Char)
  | [] => []
  | [line] => wordsOf line
  | line :: next :: rest =>
    wordsOf line ++ (if 0 < line.length then [['\n']] else []) ++ tokensOfLines (next :: rest)

/-- Tokenizer of `processTextForPage` (`TextReader.tsx` lines 247-265): split
the page text on newline characters, trim every line, and emit the
whitespace-separated words of each line, with one line-break marker token
after every non-empty line other than the last.  (The early return of the
source for an empty `pageText` leaves the token list unchanged; on empty
input this function likewise emits no tokens.) -/
def processTextForPage (pageText : List Char) : List (List Char) :=
  tokensOfLines ((pageText.splitOn '\n').map jsTrim)

theorem tokensOfLines_ne_nil : ∀ (lines : List (List Char)),
    ∀ w ∈ tokensOfLines lines, w ≠ [] := by
  intro lines
  induction lines with
  | nil => intro w hw; simp [tokensOfLines] at hw
  | cons line rest ih =>
    intro w hw
    match rest with
    | [] => exact wordsAux_ne_nil line [] w hw
    | next :: rest2 =>
      simp only [tokensOfLines, List.append_assoc, List.mem_append] at hw
      rcases hw with h | h | h
      · exact wordsAux_ne_nil line [] w h
      · split at h
        · simp only [List.mem_singleton] at h
          subst h
          simp
        · simp at h
      · exact ih w h

theorem count_newline_tokensOfLines : ∀ (lines : List (List Char)),
    (tokensOfLines lines).count ['\n'] =
      (lines.dropLast.filter (fun line => !line.isEmpty)).length := by
  intro lines
  induction lines with
  | nil => rfl
  | cons line rest ih =>
    match rest with
    | [] =>
      simp only [tokensOfLines, List.dropLast_single, List.filter_nil, List.length_nil]
      exact count_newline_wordsOf line
    | next :: rest2 =>
      simp only [tokensOfLines, List.count_append, count_newline_wordsOf, ih,
        List.dropLast_cons₂, List.filter_cons]
      cases line with
      | nil => simp
      | cons a b =>
        simp only [List.length_cons, Nat.zero_lt_succ, if_pos, List.isEmpty_cons,
          Bool.not_false, if_true, List.length_cons, List.count_cons, List.count_nil]
        simp
        omega

/-- C5: the tokenizer never produces an empty-string token; a line-break
marker token is inserted for a line exactly when that (trimmed) line is
non-empty and is not the last line, so the number of line-break tokens
equals the number of non-last non-empty trimmed lines; and on the concrete
input `"Hello world\n\nBye"` the tokens are exactly
`["Hello", "world", "\n", "Bye"]`. -/
theorem tokenize_spec (pageText : List Char) :
    ([] ∉ processTextForPage pageText) ∧
      (processTextForPage pageText).count ['\n'] =
        (((pageText.splitOn '\n').map jsTrim).dropLast.filter
          (fun line => !line.isEmpty)).length ∧
      processTextForPage "Hello world\n\nBye".toList =
        ["Hello".toList, "world".toList, ['\n'], "Bye".toList] :=
  ⟨fun h => tokensOfLines_ne_nil _ [] h rfl,
   count_newline_tokensOfLines _,
   by decide⟩

/-- Streak update of `updateReadingStats` (`TextReader.tsx` lines 332-352).
Calendar days are abstracted to day numbers, so that the source comparison
`new Date(a).toDateString() === new Date(b).toDateString()` becomes equality
of day numbers.  The source computes both `isToday` (line 337) and
`isYesterday` (line 338) with the identical same-day comparison of
`last_read_at` against the current date; this definition reproduces that
verbatim. -/
def updateStreak (lastReadDay nowDay currentStreak longestStreak : Nat) : Nat × Nat :=
  let isToday := lastReadDay == nowDay
  let isYesterday := lastReadDay == nowDay
  if !isToday then
    if isYesterday then
      let c := currentStreak + 1
      (c, if c > longestStreak then c else longestStreak)
    else (1, longestStreak)
  else (currentStreak, longestStreak)

/-- C4: at the claim's own scenario — `lastReadAt` exactly one calendar day
before now (day 100 against day 101), `currentStreak = 3`,
`longestStreak = 5` — the code resets the streak to 1 instead of
incrementing it to 4, because `isYesterday` (`TextReader.tsx` line 338) is
computed with the very same same-calendar-day comparison as `isToday`
(line 337), making the increment branch unreachable. -/
theorem updateStreak_yesterday_resets : updateStreak 100 101 3 5 = (1, 5) := by
  decide

/-- Live playback state of the reader component: the `useState` fields of
`TextReader.tsx` that the playback state machine reads and writes, the
current page text (`textPages[currentPage - 1]`), whether the utterance
reference is non-null, whether the platform speech engine has an active
utterance (set by `speak`, cleared by `cancel`), the global
`speechStartTime` in milliseconds, and a flag recording that the
"Nothing to read" toast was raised.  Character positions and the word index
are JavaScript numbers holding integers, modelled as `Int`; the speech rate
is a JavaScript float in quarter steps of `[0.25, 2]`, modelled as an exact
rational. -/
structure ReaderState where
  isSpeaking : Bool
  isPaused : Bool
  isVoiceChanging : Bool
  currentWordIndex : Int
  currentTextPosition : Int
  speechRate : ℚ
  pageText : List Char
  utteranceRef : Bool
  platformActive : Bool
  showSpeechError : Bool
  speechStartTime : Nat
  emptyToast : Bool
deriving DecidableEq

/-- Model of `stopSpeech` (`TextReader.tsx` lines 707-722, web branch):
`speechSynthesis.cancel()` clears the platform utterance, then the speaking,
paused and voice-changing flags are reset, the word index is set to `-1`,
and the utterance reference is nulled.  `currentTextPosition` is not
touched.  (`cancel` is assumed not to throw, so the `catch` arm is dead.) -/
def stopSpeech (s : ReaderState) : ReaderState :=
  { s with
    platformActive := false
    isSpeaking := false
    isPaused := false
    isVoiceChanging := false
    currentWordIndex := -1
    utteranceRef := false }

/-- Model of `startSpeech` with `createUtterance` inlined (`TextReader.tsx`
lines 566-670, web branch).  `speechSynthesis.cancel()` runs first (line
658); `createUtterance` then clears the speech-error flag (line 567) and
rejects a page text that is empty after trimming by raising the
"Nothing to read" toast and returning null, upon which `startSpeech`
returns (line 661); otherwise `createUtterance` records the start position
(line 649) and `startSpeech` stores the utterance reference, calls `speak`,
sets the speaking/paused flags, and resets the word index when starting
from position 0 (lines 663-670). -/
def startSpeech (fromPosition : Int) (s : ReaderState) : ReaderState :=
  let s1 := { s with platformActive := false, showSpeechError := false }
  if (jsTrim s.pageText).isEmpty then
    { s1 with emptyToast := true }
  else
    let s2 := { s1 with
      currentTextPosition := fromPosition, utteranceRef := true,
      platformActive := true, isSpeaking := true, isPaused := false }
    if fromPosition == 0 then { s2 with currentWordIndex := -1 } else s2

/-- Model of `pauseSpeech` (`TextReader.tsx` lines 724-738): guarded only by
`isSpeaking` (not by `isPaused`), it estimates the characters spoken since
`speechStartTime` at `0.025` characters per millisecond per rate unit,
clamps the estimate by the remaining page length, advances
`currentTextPosition` by the clamped estimate and sets `isPaused`.  The
wall clock `now` is `Date.now()` in milliseconds. -/
def pauseSpeech (now : Nat) (s : ReaderState) : ReaderState :=
  if s.isSpeaking then
    let timeSinceStart : Int := (now : Int) - (s.speechStartTime : Int)
    let charsSpoken : Int :=
      min ⌊(timeSinceStart : ℚ) * 0.025 * s.speechRate⌋
        ((s.pageText.length : Int) - s.currentTextPosition)
    { s with currentTextPosition := s.currentTextPosition + charsSpoken, isPaused := true }
  else s

/-- Model of `resumeSpeech` (`TextReader.tsx` lines 740-745): when speaking
and paused, the platform resume primitive is invoked and `isPaused` is
cleared; otherwise nothing happens. -/
def resumeSpeech (s : ReaderState) : ReaderState :=
  if s.isSpeaking && s.isPaused then { s with isPaused := false } else s

/-- Model of `skipForward` (`TextReader.tsx` lines 747-764): when
`isSpeaking`, compute `skipChars = Math.floor((15 * speechRate) * 10)`,
clamp the target to the last character index of the page, and restart
playback there via `stopSpeech` followed by `startSpeech`. -/
def skipForward (s : ReaderState) : ReaderState :=
  if s.isSpeaking then
    let charsPerSecond : ℚ := 15 * s.speechRate
    let skipChars : Int := ⌊charsPerSecond * 10⌋
    let newPosition : Int :=
      min (s.currentTextPosition + skipChars) ((s.pageText.length : Int) - 1)
    startSpeech newPosition (stopSpeech s)
  else s

/-- Model of `skipBackward` (`TextReader.tsx` lines 766-780): when
`isSpeaking`, compute `skipChars = Math.floor((15 * speechRate) * 10)`,
clamp the target below by 0, and restart playback there via `stopSpeech`
followed by `startSpeech`. -/
def skipBackward (s : ReaderState) : ReaderState :=
  if s.isSpeaking then
    let charsPerSecond : ℚ := 15 * s.speechRate
    let skipChars : Int := ⌊charsPerSecond * 10⌋
    let newPosition : Int := max (s.currentTextPosition - skipChars) 0
    startSpeech newPosition (stopSpeech s)
  else s

/-- C2 fails as stated: `stopSpeech` does not reset the character offset to
0.  From a Speaking state with `currentTextPosition = 5` it returns a state
that is Idle with `wordIndex = -1` but whose `currentTextPosition` is still
`5`. -/
theorem stopSpeech_keeps_position_counterexample :
    (stopSpeech { isSpeaking := true, isPaused := false, isVoiceChanging := false,
                  currentWordIndex := 3, currentTextPosition := 5, speechRate := 1,
                  pageText := "hello world".toList, utteranceRef := true,
                  platformActive := true, showSpeechError := false, speechStartTime := 0,
                  emptyToast := false }).currentTextPosition = 5 ∧
      (5 : Int) ≠ 0 := by
  constructor
  · rfl
  · decide

/-- C2 amended: `stopSpeech` always sets the session to Idle with
`wordIndex = -1`, clears the pause and voice-changing flags and the
utterance, is idempotent, and is safe to call in any state — but it leaves
`charOffset` (`currentTextPosition`) unchanged rather than resetting it to
0. -/
theorem stopSpeech_spec (s : ReaderState) :
    (stopSpeech s).isSpeaking = false ∧ (stopSpeech s).isPaused = false ∧
      (stopSpeech s).currentWordIndex = -1 ∧ (stopSpeech s).utteranceRef = false ∧
      (stopSpeech s).platformActive = false ∧
      (stopSpeech s).currentTextPosition = s.currentTextPosition ∧
      stopSpeech (stopSpeech s) = stopSpeech s := by
  simp [stopSpeech]

/-- State used by the C3 counterexample and witness: Speaking at position 0
of a 100-character page, rate 1, utterance started at time 0. -/
def pauseState : ReaderState :=
  { isSpeaking := true, isPaused := false, isVoiceChanging := false,
    currentWordIndex := 0, currentTextPosition := 0, speechRate := 1,
    pageText := List.replicate 100 'a', utteranceRef := true, platformActive := true,
    showSpeechError := false, speechStartTime := 0, emptyToast := false }

/-- C3 fails as stated: calling `pauseSpeech` twice in a row while Speaking
(both calls at the same instant, 1000 ms after start) does not have the same
effect as calling it once — the guard checks only `isSpeaking`, so the
second call adds a fresh elapsed-time estimate and the frozen offset moves
from 25 to 50. -/
theorem pause_twice_counterexample :
    pauseState.isSpeaking = true ∧ pauseState.isPaused = false ∧
      (pauseSpeech 1000 pauseState).currentTextPosition = 25 ∧
      (pauseSpeech 1000 (pauseSpeech 1000 pauseState)).currentTextPosition = 50 ∧
      pauseSpeech 1000 (pauseSpeech 1000 pauseState) ≠ pauseSpeech 1000 pauseState := by
  have h1 : pauseSpeech 1000 pauseState =
      { pauseState with currentTextPosition := 25, isPaused := true } := by
    simp [pauseSpeech, pauseState]
    norm_num
  have h2 : pauseSpeech 1000 { pauseState with currentTextPosition := 25, isPaused := true } =
      { pauseState with currentTextPosition := 50, isPaused := true } := by
    simp [pauseSpeech, pauseState]
    norm_num
  refine ⟨rfl, rfl, by rw [h1], by rw [h1, h2], ?_⟩
  rw [h1, h2]
  intro h
  have := congrArg ReaderState.currentTextPosition h
  simp [pauseState] at this

/-- C3 amended: calling `resumeSpeech` twice in a row has the same effect as
calling it once; calling `pauseSpeech` twice in a row while Speaking does
not — the second call advances the frozen offset estimate by a further
`min(⌊elapsed · 0.025 · rate⌋, pageTextLength − newOffset)`, so the two
effects coincide only when that additional increment is zero. -/
theorem pause_resume_spec (now : Nat) (s : ReaderState) (h : s.isSpeaking = true) :
    resumeSpeech (resumeSpeech s) = resumeSpeech s ∧
      (pauseSpeech now (pauseSpeech now s)).currentTextPosition =
        (pauseSpeech now s).currentTextPosition +
          min ⌊((((now : Int) - (s.speechStartTime : Int)) : Int) : ℚ) * 0.025 * s.speechRate⌋
            ((s.pageText.length : Int) - (pauseSpeech now s).currentTextPosition) := by
  constructor
  · cases hp : s.isPaused
    · simp [resumeSpeech, hp]
    · cases hs : s.isSpeaking
      · simp [resumeSpeech, hs]
      · simp [resumeSpeech, hs, hp]
  · simp [pauseSpeech, h]

/-- Witness for `pause_resume_spec` at `pauseState` and `now = 2000`. -/
theorem pause_resume_spec_witness :
    resumeSpeech (resumeSpeech pauseState) = resumeSpeech pauseState ∧
      (pauseSpeech 2000 (pauseSpeech 2000 pauseState)).currentTextPosition =
        (pauseSpeech 2000 pauseState).currentTextPosition +
          min ⌊((((2000 : Int) - ((pauseState.speechStartTime : Nat) : Int)) : Int) : ℚ) * 0.025 *
              pauseState.speechRate⌋
            ((pauseState.pageText.length : Int) -
              (pauseSpeech 2000 pauseState).currentTextPosition) :=
  pause_resume_spec 2000 pauseState rfl

theorem startSpeech_proj (fromPosition : Int) (s : ReaderState)
    (h : (jsTrim s.pageText).isEmpty = false) :
    (startSpeech fromPosition s).currentTextPosition = fromPosition ∧
      (startSpeech fromPosition s).isSpeaking = true ∧
      (startSpeech fromPosition s).isPaused = false := by
  simp only [startSpeech, h, Bool.false_eq_true, if_false]
  split
  · exact ⟨rfl, rfl, rfl⟩
  · exact ⟨rfl, rfl, rfl⟩

theorem skipForward_eq (s : ReaderState) (h : s.isSpeaking = true) :
    skipForward s =
      startSpeech (min (s.currentTextPosition + ⌊15 * s.speechRate * 10⌋)
        ((s.pageText.length : Int) - 1)) (stopSpeech s) := by
  rw [skipForward, if_pos h]

theorem skipBackward_eq (s : ReaderState) (h : s.isSpeaking = true) :
    skipBackward s =
      startSpeech (max (s.currentTextPosition - ⌊15 * s.speechRate * 10⌋) 0)
        (stopSpeech s) := by
  rw [skipBackward, if_pos h]

/-- State used by the C6 counterexample and witness: Speaking (not paused)
at position 0 of a 50-character page at rate 0.25. -/
def skipState : ReaderState :=
  { isSpeaking := true, isPaused := false, isVoiceChanging := false,
    currentWordIndex := 0, currentTextPosition := 0, speechRate := 1 / 4,
    pageText := List.replicate 50 'a', utteranceRef := true, platformActive := true,
    showSpeechError := false, speechStartTime := 0, emptyToast := false }

/-- Paused variant of `skipState`, at position 10. -/
def skipPausedState : ReaderState :=
  { skipState with isPaused := true, currentTextPosition := 10 }

theorem skipState_trim : (jsTrim (List.replicate 50 'a')).isEmpty = false := by
  decide

/-- C6 fails as stated, on two counts witnessed at rate 0.25: with
`charOffset = 0` on a 50-character page, `skipForward` moves the offset to
`⌊15 · 0.25 · 10⌋ = 37` — not to `clamp(charOffset + round(15 · 0.25 · 10),
0, 49) = 38` as the claimed rounding formula requires — and `skipForward` is
not a no-op while the session is Paused. -/
theorem skip_counterexample :
    (skipForward skipState).currentTextPosition = 37 ∧
      min (skipState.currentTextPosition + ⌊(15 : ℚ) * skipState.speechRate * 10 + 1 / 2⌋)
          ((skipState.pageText.length : Int) - 1) = 38 ∧
      skipPausedState.isPaused = true ∧
      skipForward skipPausedState ≠ skipPausedState := by
  have hf37 : (⌊(15 : ℚ) * (1 / 4 : ℚ) * 10⌋ : Int) = 37 := by
    rw [Int.floor_eq_iff]
    norm_num
  have hf38 : (⌊(15 : ℚ) * (1 / 4 : ℚ) * 10 + 1 / 2⌋ : Int) = 38 := by
    rw [Int.floor_eq_iff]
    norm_num
  refine ⟨?_, ?_, rfl, ?_⟩
  · rw [skipForward_eq skipState rfl]
    rw [(startSpeech_proj _ (stopSpeech skipState) skipState_trim).1]
    show min ((0 : Int) + ⌊(15 : ℚ) * (1 / 4 : ℚ) * 10⌋ ) (((List.replicate 50 'a').length : Int) - 1) = 37
    rw [hf37]
    simp
  · show min ((0 : Int) + ⌊(15 : ℚ) * (1 / 4 : ℚ) * 10 + 1 / 2⌋)
        (((List.replicate 50 'a').length : Int) - 1) = 38
    rw [hf38]
    simp
  · have h1 : (skipForward skipPausedState).isPaused = false := by
      rw [skipForward_eq skipPausedState rfl]
      exact (startSpeech_proj _ (stopSpeech skipPausedState) skipState_trim).2.2
    intro heq
    rw [heq] at h1
    exact absurd h1 (by decide)

/-- C6 amended: skipping is a no-op when the session is Idle
(`isSpeaking = false`), but operates whenever `isSpeaking` holds — while
Paused as well as while Speaking; `skipChars = ⌊(15 · rate) · 10⌋` (floor,
not round); the forward target offset is
`min(charOffset + skipChars, pageTextLength − 1)` and the backward target is
`max(charOffset − skipChars, 0)`; playback is restarted — `stopSpeech` then
`startSpeech` — from that offset. -/
theorem skip_spec (s : ReaderState) :
    (s.isSpeaking = false → skipForward s = s ∧ skipBackward s = s) ∧
      (s.isSpeaking = true →
        skipForward s =
            startSpeech (min (s.currentTextPosition + ⌊15 * s.speechRate * 10⌋)
              ((s.pageText.length : Int) - 1)) (stopSpeech s) ∧
          skipBackward s =
            startSpeech (max (s.currentTextPosition - ⌊15 * s.speechRate * 10⌋) 0)
              (stopSpeech s) ∧
          ((jsTrim s.pageText).isEmpty = false →
            (skipForward s).currentTextPosition =
                min (s.currentTextPosition + ⌊15 * s.speechRate * 10⌋)
                  ((s.pageText.length : Int) - 1) ∧
              (skipForward s).isSpeaking = true ∧
              (skipBackward s).currentTextPosition =
                max (s.currentTextPosition - ⌊15 * s.speechRate * 10⌋) 0 ∧
              (skipBackward s).isSpeaking = true)) := by
  constructor
  · intro h
    constructor
    · rw [skipForward, if_neg (by simp [h])]
    · rw [skipBackward, if_neg (by simp [h])]
  · intro h
    refine ⟨skipForward_eq s h, skipBackward_eq s h, fun hne => ?_⟩
    refine ⟨?_, ?_, ?_, ?_⟩
    · rw [skipForward_eq s h]
      exact (startSpeech_proj _ (stopSpeech s) hne).1
    · rw [skipForward_eq s h]
      exact (startSpeech_proj _ (stopSpeech s) hne).2.1
    · rw [skipBackward_eq s h]
      exact (startSpeech_proj _ (stopSpeech s) hne).1
    · rw [skipBackward_eq s h]
      exact (startSpeech_proj _ (stopSpeech s) hne).2.1

/-- Witness for `skip_spec` at the Speaking state `skipState`, with the
speaking and non-empty-page hypotheses discharged. -/
theorem skip_spec_witness :
    (skipForward skipState).currentTextPosition =
        min (skipState.currentTextPosition + ⌊15 * skipState.speechRate * 10⌋)
          ((skipState.pageText.length : Int) - 1) ∧
      (skipForward skipState).isSpeaking = true ∧
      (skipBackward skipState).currentTextPosition =
        max (skipState.currentTextPosition - ⌊15 * skipState.speechRate * 10⌋) 0 ∧
      (skipBackward skipState).isSpeaking = true :=
  ((skip_spec skipState).2 rfl).2.2 skipState_trim

/-- State used by the C7 counterexample and witness: a session whose current
page text is whitespace only, while an utterance is still active on the
platform. -/
def emptyPageState : ReaderState :=
  { isSpeaking := true, isPaused := false, isVoiceChanging := false,
    currentWordIndex := 2, currentTextPosition := 1, speechRate := 1,
    pageText := "   ".toList, utteranceRef := true, platformActive := true,
    showSpeechError := false, speechStartTime := 0, emptyToast := false }

/-- C7 fails as stated: calling start on a page text that is empty after
trimming does reject the request, but `speechSynthesis.cancel()` has already
run (line 658 precedes the emptiness check of line 570), so an active
platform utterance does not survive the rejected call: the active utterance
is mutated. -/
theorem start_empty_counterexample :
    (jsTrim emptyPageState.pageText).isEmpty = true ∧
      emptyPageState.platformActive = true ∧
      (startSpeech 0 emptyPageState).platformActive = false := by
  refine ⟨by decide, rfl, ?_⟩
  simp [startSpeech, emptyPageState]
  decide

/-- C7 amended: calling start with page text that is empty after trimming
signals the empty-content toast and leaves `status`
(`isSpeaking`/`isPaused`), `wordIndex`, `charOffset` and the utterance
reference unchanged — the rejection happens before those are mutated — but
it is not entirely mutation-free: the platform utterance is cancelled and
the speech-error flag is cleared before the emptiness check runs. -/
theorem start_empty_spec (fromPosition : Int) (s : ReaderState)
    (h : (jsTrim s.pageText).isEmpty = true) :
    startSpeech fromPosition s =
      { s with platformActive := false, showSpeechError := false, emptyToast := true } := by
  simp [startSpeech, h]

/-- Witness for `start_empty_spec` at `emptyPageState`. -/
theorem start_empty_spec_witness :
    startSpeech 0 emptyPageState =
      { emptyPageState with
        platformActive := false, showSpeechError := false, emptyToast := true } :=
  start_empty_spec 0 emptyPageState (by decide)

/-- Platform synthesis voice: only the name matters to the resolver. -/
structure Voice where
  name : List Char
deriving DecidableEq

/-- Lower-cased voice name, modelling `voice.name.toLowerCase()`. -/
def lowerName (v : Voice) : List Char :=
  v.name.map Char.toLower

/-- Containment of `pat` as a contiguous substring of `l`, modelling
JavaScript `String.prototype.includes`. -/
def containsSub (l pat : List Char) : Bool :=
  (List.range (l.length + 1)).any (fun i => pat.isPrefixOf (l.drop i))

/-- Static preference table of `findMatchingVoice` (`TextReader.tsx` lines
518-521); ids other than "male" and "female" get the empty list. -/
def voicePreferences (voiceId : List Char) : List (List Char) :=
  if voiceId = "male".toList then
    ["daniel".toList, "david".toList, "male".toList, "man".toList, "guy".toList]
  else if voiceId = "female".toList then
    ["emily".toList, "samantha".toList, "female".toList, "woman".toList, "girl".toList]
  else []

/-- Gender-word fallback predicate of pass 3 (`TextReader.tsx` lines
545-555), reproduced verbatim — including the `!includes("male")` disjunct
of the female branch. -/
def genderFallback (isFemalePref : Bool) (v : Voice) : Bool :=
  if isFemalePref then
    containsSub (lowerName v) "female".toList ||
      !containsSub (lowerName v) "male".toList ||
      containsSub (lowerName v) "woman".toList ||
      containsSub (lowerName v) "girl".toList
  else
    containsSub (lowerName v) "male".toList ||
      containsSub (lowerName v) "man".toList ||
      containsSub (lowerName v) "guy".toList

/-- Model of `findMatchingVoice` (`TextReader.tsx` lines 509-564): an empty
catalog yields null; otherwise pass 1 scans the preference substrings in
order for an exact case-insensitive name match, pass 2 for a
case-insensitive substring containment match, pass 3 applies the
gender-word fallback, and pass 4 falls back to the first catalog entry.
JavaScript substring containment `name.includes(pat)` is modelled by
`containsSub`. -/
def findMatchingVoice (voiceId : List Char) (availableVoices : List Voice) : Option Voice :=
  if availableVoices.isEmpty then none
  else
    let preferences := voicePreferences voiceId
    match preferences.findSome?
        (fun pref => availableVoices.find? (fun v => lowerName v == pref)) with
    | some v => some v
    | none =>
      match preferences.findSome?
          (fun pref => availableVoices.find? (fun v => containsSub (lowerName v) pref)) with
      | some v => some v
      | none =>
        match availableVoices.find? (genderFallback (voiceId == "female".toList)) with
        | some v => some v
        | none => availableVoices.head?

/-- C8: `findMatchingVoice` returns null exactly on an empty catalog; on any
non-empty catalog the pass sequence (exact preference match, then substring
preference match, then gender-word fallback, then first catalog entry)
always yields a voice; and on the catalog
`["Microsoft David", "Google UK English Female"]` the preference id "male"
resolves to the Microsoft David voice (via the substring "david" in pass
2). -/
theorem findMatchingVoice_spec :
    (∀ voiceId, findMatchingVoice voiceId [] = none) ∧
      (∀ voiceId catalog, catalog ≠ [] → (findMatchingVoice voiceId catalog).isSome = true) ∧
      findMatchingVoice "male".toList
          [⟨"Microsoft David".toList⟩, ⟨"Google UK English Female".toList⟩] =
        some ⟨"Microsoft David".toList⟩ := by
  refine ⟨fun voiceId => rfl, ?_, by decide⟩
  intro voiceId catalog hne
  have hhead : catalog.head?.isSome = true := by
    cases catalog with
    | nil => exact absurd rfl hne
    | cons a l => rfl
  have hemp : catalog.isEmpty = false := by simp [hne]
  simp only [findMatchingVoice, hemp, Bool.false_eq_true, if_false]
  repeat' split
  all_goals first
    | rfl
    | exact hhead

/-- Witness for `findMatchingVoice_spec`: its non-emptiness clause applied
to a one-entry catalog. -/
theorem findMatchingVoice_spec_witness :
    (findMatchingVoice "female".toList [⟨"Alloy".toList⟩]).isSome = true :=
  findMatchingVoice_spec.2.1 "female".toList [⟨"Alloy".toList⟩] (by simp)

theorem wordsAux_append_sep (sep : Char) (hsep : isJsSpace sep = true) :
    ∀ (a acc b : List Char),
      wordsAux acc (a ++ sep :: b) = wordsAux acc a ++ wordsAux [] b := by
  intro a
  induction a with
  | nil =>
    intro acc b
    simp only [List.nil_append, wordsAux, hsep, if_true]
    cases h : acc.isEmpty
    · simp [wordsAux, h]
    · simp [wordsAux, h]
  | cons x a2 ih =>
    intro acc b
    simp only [List.cons_append, wordsAux, List.append_eq]
    cases hx : isJsSpace x
    · simp only [Bool.false_eq_true, if_false]
      exact ih (x :: acc) b
    · simp only [if_true]
      cases h : acc.isEmpty
      · simp only [Bool.false_eq_true, if_false]
        rw [ih [] b]
        simp
      · simp only [if_true]
        rw [ih [] b]

theorem wordsAux_all_space : ∀ (t : List Char), (∀ c ∈ t, isJsSpace c = true) →
    ∀ acc, wordsAux acc t = wordsAux acc [] := by
  intro t
  induction t with
  | nil => intro _ acc; rfl
  | cons c t2 ih =>
    intro h acc
    have hc : isJsSpace c = true := h c (by simp)
    have ht2 : ∀ d ∈ t2, isJsSpace d = true := fun d hd => h d (by simp [hd])
    simp only [wordsAux, hc, if_true]
    cases hacc : acc.isEmpty
    · rw [ih ht2 []]
      cases acc with
      | nil => simp at hacc
      | cons y ys => simp [wordsAux]
    · rw [ih ht2 []]
      cases acc with
      | nil => simp [wordsAux]
      | cons y ys => simp at hacc

theorem wordsAux_dropWhile (l : List Char) :
    wordsAux [] l = wordsAux [] (l.dropWhile isJsSpace) := by
  induction l with
  | nil => rfl
  | cons c rest ih =>
    cases hc : isJsSpace c
    · rw [List.dropWhile_cons_of_neg (by simp [hc])]
    · rw [List.dropWhile_cons_of_pos (by simp [hc])]
      rw [← ih]
      simp [wordsAux, hc]

theorem wordsAux_append_spaces : ∀ (l t : List Char),
    (∀ c ∈ t, isJsSpace c = true) → ∀ acc, wordsAux acc (l ++ t) = wordsAux acc l := by
  intro l
  induction l with
  | nil =>
    intro t ht acc
    simp only [List.nil_append]
    exact wordsAux_all_space t ht acc
  | cons x l2 ih =>
    intro t ht acc
    simp only [List.cons_append, wordsAux, List.append_eq]
    cases hx : isJsSpace x
    · simp only [Bool.false_eq_true, if_false]
      exact ih t ht (x :: acc)
    · simp only [if_true]
      cases hacc : acc.isEmpty
      · simp only [Bool.false_eq_true, if_false]
        rw [ih t ht []]
      · simp only [if_true]
        rw [ih t ht []]

theorem wordsOf_jsTrim (l : List Char) : wordsOf (jsTrim l) = wordsOf l := by
  unfold wordsOf
  rw [wordsAux_dropWhile l]
  set d := l.dropWhile isJsSpace with hd
  have hdecomp : d = jsTrim l ++ (d.reverse.takeWhile isJsSpace).reverse := by
    have h1 : d.reverse.takeWhile isJsSpace ++ d.reverse.dropWhile isJsSpace = d.reverse :=
      List.takeWhile_append_dropWhile _ _
    have h2 := congrArg List.reverse h1
    simp only [List.reverse_append, List.reverse_reverse] at h2
    rw [jsTrim, ← hd]
    exact h2.symm
  rw [hdecomp, wordsAux_append_spaces]
  intro c hc
  exact List.mem_takeWhile_imp (List.mem_reverse.mp hc)

theorem wordsOf_intercalate : ∀ (lines : List (List Char)),
    wordsOf (List.intercalate ['\n'] lines) = (lines.map wordsOf).flatten := by
  intro lines
  induction lines with
  | nil => rfl
  | cons l rest ih =>
    cases rest with
    | nil => simp [List.intercalate]
    | cons next rest2 =>
      have hstep : List.intercalate ['\n'] (l :: next :: rest2) =
          l ++ '\n' :: List.intercalate ['\n'] (next :: rest2) := by
        simp [List.intercalate, List.intersperse_cons_cons]
      rw [hstep]
      show wordsAux [] (l ++ '\n' :: List.intercalate ['\n'] (next :: rest2)) = _
      rw [wordsAux_append_sep '\n' (by decide)]
      rw [List.map_cons, List.flatten_cons]
      exact congrArg (wordsOf l ++ ·) ih

theorem filter_tokensOfLines : ∀ (lines : List (List Char)),
    (tokensOfLines lines).filter (fun tok => tok ≠ ['\n']) = (lines.map wordsOf).flatten := by
  intro lines
  induction lines with
  | nil => rfl
  | cons line rest ih =>
    cases rest with
    | nil =>
      show (wordsOf line).filter _ = _
      rw [filter_wordsOf]
      simp
    | cons next rest2 =>
      show ((wordsOf line ++ _) ++ _).filter _ = _
      rw [List.filter_append, List.filter_append, filter_wordsOf, ih]
      have hbrk : (if 0 < line.length then [['\n']] else []).filter
          (fun tok => tok ≠ ['\n']) = [] := by
        split
        · simp
        · simp
      rw [hbrk]
      simp

/-- Identification of the word tokens: filtering the line-break markers out
of the token sequence of a page yields exactly the whitespace-delimited
words of the whole page text, in order. -/
theorem tokens_filter_eq_wordsOf (pageText : List Char) :
    (processTextForPage pageText).filter (fun tok => tok ≠ ['\n']) = wordsOf pageText := by
  rw [processTextForPage, filter_tokensOfLines, List.map_map]
  have hmap : (pageText.splitOn '\n').map (wordsOf ∘ jsTrim) =
      (pageText.splitOn '\n').map wordsOf := by
    apply List.map_congr_left
    intro l _
    exact wordsOf_jsTrim l
  rw [hmap, ← wordsOf_intercalate]
  rw [List.intercalate_splitOn]

/-- Index in `l` of the `j`-th (0-based) element satisfying `P`, when it
exists. -/
def findIdxOfNth (P : List Char → Bool) : List (List Char) → Nat → Option Nat
  | [], _ => none
  | a :: l, j =>
    if P a then
      if j = 0 then some 0 else (findIdxOfNth P l (j - 1)).map (· + 1)
    else (findIdxOfNth P l j).map (· + 1)

theorem findIdxOfNth_spec (P : List Char → Bool) :
    ∀ (l : List (List Char)) (j i : Nat), findIdxOfNth P l j = some i →
      i < l.length ∧ (l.take i).countP P = j := by
  intro l
  induction l with
  | nil => intro j i h; simp [findIdxOfNth] at h
  | cons a l ih =>
    intro j i h
    simp only [findIdxOfNth] at h
    split at h
    · rename_i hPa
      split at h
      · rename_i hj
        subst hj
        cases h
        simp
      · rename_i hj
        match hfind : findIdxOfNth P l (j - 1) with
        | none => rw [hfind] at h; simp at h
        | some i0 =>
          rw [hfind] at h
          simp only [Option.map_some'] at h
          cases h
          obtain ⟨hlt, hcount⟩ := ih (j - 1) i0 hfind
          constructor
          · simp only [List.length_cons]; omega
          · have hstep : ((a :: l).take (i0 + 1)).countP P = (l.take i0).countP P + 1 := by
              rw [List.take_succ_cons, List.countP_cons, hPa]
              simp
            rw [hstep, hcount]
            omega
    · rename_i hPa
      match hfind : findIdxOfNth P l j with
      | none => rw [hfind] at h; simp at h
      | some i0 =>
        rw [hfind] at h
        simp only [Option.map_some'] at h
        cases h
        obtain ⟨hlt, hcount⟩ := ih j i0 hfind
        constructor
        · simp only [List.length_cons]; omega
        · have hstep : ((a :: l).take (i0 + 1)).countP P = (l.take i0).countP P := by
            rw [List.take_succ_cons, List.countP_cons]
            simp only [Bool.not_eq_true] at hPa
            simp [hPa]
          rw [hstep, hcount]

theorem countP_word_add_count_newline (t : List (List Char)) :
    t.countP (fun tok => tok ≠ ['\n']) + t.count ['\n'] = t.length := by
  induction t with
  | nil => rfl
  | cons a t ih =>
    by_cases h : a = ['\n'] <;>
      simp only [ne_eq, List.countP_cons, List.count_cons, List.length_cons,
        decide_not] at ih ⊢ <;>
      simp [h] <;>
      omega

/-- Word-boundary handler index computation (`TextReader.tsx` lines
592-597): the highlighted index is the number of whitespace-delimited words
in the absolute prefix `pageText.substring(0, startFrom + event.charIndex)`. -/
def boundaryWordIndex (pageText : List Char) (startFrom charIndex : Nat) : Nat :=
  (wordsOf (pageText.take (startFrom + charIndex))).length

/-- C10: the boundary handler highlights index
`boundaryWordIndex pageText startFrom charIndex`, a count of words only;
the token sequence used for highlighting lists the same words in order but
interleaved with line-break marker tokens (first conjunct); hence whenever
the spoken word token — the token holding the word numbered by the computed
index — is preceded in the token sequence by at least one line-break token,
the computed index differs from that token's index `i`. -/
theorem boundary_highlight_mismatch (pageText : List Char) (startFrom charIndex i : Nat)
    (hfind : findIdxOfNth (fun tok => tok ≠ ['\n']) (processTextForPage pageText)
        (boundaryWordIndex pageText startFrom charIndex) = some i)
    (hbrk : 1 ≤ ((processTextForPage pageText).take i).count ['\n']) :
    ((processTextForPage pageText).filter (fun tok => tok ≠ ['\n']) = wordsOf pageText) ∧
      boundaryWordIndex pageText startFrom charIndex ≠ i := by
  refine ⟨tokens_filter_eq_wordsOf pageText, ?_⟩
  obtain ⟨hlt, hcount⟩ := findIdxOfNth_spec _ _ _ _ hfind
  have hlen : ((processTextForPage pageText).take i).length = i := by
    rw [List.length_take]
    omega
  have hsum := countP_word_add_count_newline ((processTextForPage pageText).take i)
  omega

/-- Witness for `boundary_highlight_mismatch` on the page `"Hi\nthere"` at
the boundary of the word "there" (prefix length 3): the computed index is 1
while the spoken word sits at token index 2, after the line-break token. -/
theorem boundary_highlight_mismatch_witness :
    ((processTextForPage "Hi\nthere".toList).filter (fun tok => tok ≠ ['\n']) =
        wordsOf "Hi\nthere".toList) ∧
      boundaryWordIndex "Hi\nthere".toList 0 3 ≠ 2 :=
  boundary_highlight_mismatch "Hi\nthere".toList 0 3 2 (by decide) (by decide)

end DyslexiaReader
